import Mathlib

set_option maxHeartbeats 1000000

namespace tools

/-! Verification development for the Go package `tools` (file `tools.go`) of the
build-tools repository.  Go strings are modeled as `List Char`; Go byte
comparisons are modeled through `Char.toNat` (all inputs of interest are ASCII).
Go maps are modeled as association lists whose iteration order is the
declaration order of the configuration (the specification, section 4.2, fixes
this order; Go's own map order is unspecified). -/

/-- Go strings are modeled as lists of characters. -/
abbrev GoStr := List Char

/-- Model of Go `strings.HasPrefix(s, p)`: `len(s) >= len(p) && s[0:len(p)] == p`. -/
def HasPrefix (s p : GoStr) : Bool :=
  decide (p.length ≤ s.length ∧ s.take p.length = p)

/-- Model of Go `strings.HasSuffix(s, suf)`: `len(s) >= len(suf) && s[len(s)-len(suf):] == suf`. -/
def HasSuffix (s suf : GoStr) : Bool :=
  decide (suf.length ≤ s.length ∧ s.drop (s.length - suf.length) = suf)

/-- Model of Go `strings.TrimPrefix(s, p)`. -/
def TrimPrefix (s p : GoStr) : GoStr :=
  if HasPrefix s p then s.drop p.length else s

/-- Model of Go `strings.TrimSuffix(s, suf)`. -/
def TrimSuffix (s suf : GoStr) : GoStr :=
  if HasSuffix s suf then s.take (s.length - suf.length) else s

/-- Model of Go `path/filepath.Base` for slash-separated paths: empty path gives
`"."`; trailing separators are removed; the last path element is returned; if the
path consists entirely of separators the result is `"/"`. -/
def filepathBase (path : GoStr) : GoStr :=
  if path = [] then ['.']
  else
    let r := path.reverse.dropWhile (fun c => c = '/')
    if r = [] then ['/']
    else (r.takeWhile (fun c => ¬ c = '/')).reverse

/-! Data model of `tools.go`.  `ModulePath`, `ModuleFilePath` and
`ModuleTagName` are string types in the source. -/

/-- `type ModulePath string`: a module import path. -/
abbrev ModulePath := GoStr

/-- `type ModuleFilePath string`: file path of a `go.mod` file. -/
abbrev ModuleFilePath := GoStr

/-- `type ModuleTagName string`: directory of a `go.mod` file, used for tagging. -/
abbrev ModuleTagName := GoStr

/-- The distinguished root tag: `repoRootTag = ModuleTagName("repoRootTag")`. -/
def repoRootTag : ModuleTagName := "repoRootTag".toList

/-- The canonical manifest file name `"go.mod"`, as compared against in the source. -/
def goModFile : GoStr := "go.mod".toList

/-- `type ModuleSet struct { Version string; Modules []ModulePath }`. -/
structure ModuleSet where
  Version : GoStr
  Modules : List ModulePath
deriving DecidableEq

/-- `type ModuleSetMap map[string]ModuleSet`, modeled as an association list in
declaration order. -/
abbrev ModuleSetMap := List (GoStr × ModuleSet)

/-- `type ModuleInfo struct { ModuleSetName string; Version string }`. -/
structure ModuleInfo where
  ModuleSetName : GoStr
  Version : GoStr
deriving DecidableEq

/-- `type ModuleInfoMap map[ModulePath]ModuleInfo`, as an association list. -/
abbrev ModuleInfoMap := List (ModulePath × ModuleInfo)

/-- `type ModulePathMap map[ModulePath]ModuleFilePath`, as an association list. -/
abbrev ModulePathMap := List (ModulePath × ModuleFilePath)

/-- `type versionConfig struct { ModuleSets ModuleSetMap; ExcludedModules []ModulePath }`. -/
structure versionConfig where
  ModuleSets : ModuleSetMap
  ExcludedModules : List ModulePath
deriving DecidableEq

/-- `type ModuleVersioning struct { ModSetMap ModuleSetMap; ModPathMap ModulePathMap; ModInfoMap ModuleInfoMap }`. -/
structure ModuleVersioning where
  ModSetMap : ModuleSetMap
  ModPathMap : ModulePathMap
  ModInfoMap : ModuleInfoMap
deriving DecidableEq

/-- Errors produced by the functions of `tools.go` (each `fmt.Errorf` call site
gets one constructor carrying the formatted arguments). -/
inductive ToolsError where
  /-- "Module %v exists more than once. Exists in sets %v and %v." -/
  | duplicateModule (modPath : ModulePath) (set1 set2 : GoStr)
  /-- "Module %v is an excluded module and should not be versioned." -/
  | excludedModule (modPath : ModulePath)
  /-- "could not find module path %v in path map." -/
  | unknownModulePath (modPath : ModulePath)
  /-- "modFilePath %v not contained in repo with root %v" -/
  | pathOutsideRepo (modFilePath : ModuleFilePath) (repoRoot : GoStr)
  /-- "modFilePath %v does not end with 'go.mod'" -/
  | invalidManifestPath (modFilePath : ModuleFilePath)
  /-- an `ioutil.ReadFile` failure inside the walk callback, returned to and
  propagated by `filepath.Walk` -/
  | manifestReadError (filePath : GoStr)
  /-- "Error building module set map for NewModuleVersioningInfo: %v" -/
  | newInfoSetMapWrap (inner : ToolsError)
  /-- "Error building module info map for NewModuleVersioningInfo: %v" -/
  | newInfoModMapWrap (inner : ToolsError)
  /-- "Error building module path map for NewModuleVersioningInfo: %v" -/
  | newInfoPathMapWrap (inner : ToolsError)
deriving DecidableEq

instance exceptDecEq {ε α : Type} [DecidableEq ε] [DecidableEq α] :
    DecidableEq (Except ε α)
  | .ok a, .ok b =>
    if h : a = b then isTrue (by rw [h])
    else isFalse (fun hh => h (Except.ok.inj hh))
  | .error a, .error b =>
    if h : a = b then isTrue (by rw [h])
    else isFalse (fun hh => h (Except.error.inj hh))
  | .ok _, .error _ => isFalse (fun h => Except.noConfusion h)
  | .error _, .ok _ => isFalse (fun h => Except.noConfusion h)

/-- Lookup in an association-list map (Go `m[k]` with comma-ok). -/
def lookupL {V : Type} : List (GoStr × V) → GoStr → Option V
  | [], _ => none
  | (k, v) :: rest, key => if k = key then some v else lookupL rest key

/-- Insertion into an association-list map (Go `m[k] = v`). -/
def insertL {V : Type} : List (GoStr × V) → GoStr → V → List (GoStr × V)
  | [], key, v => [(key, v)]
  | (k, w) :: rest, key, v =>
    if k = key then (key, v) :: rest else (k, w) :: insertL rest key v

/-- Model of `versionConfig.getExcludedModules`: the Go function builds a map
used only for membership tests; its key set is exactly the set of members of
`ExcludedModules`, so it is modeled by that list itself. -/
def getExcludedModules (versionCfg : versionConfig) : List ModulePath :=
  versionCfg.ExcludedModules

/-- Model of `versionConfig.shouldExcludeModule`: membership test in the
excluded-modules set. -/
def shouldExcludeModule (versionCfg : versionConfig) (modPath : ModulePath) : Bool :=
  decide (modPath ∈ getExcludedModules versionCfg)

/-- Model of `versionConfig.buildModuleSetsMap`: returns `versionCfg.ModuleSets`
and never fails. -/
def buildModuleSetsMap (versionCfg : versionConfig) : Except ToolsError ModuleSetMap :=
  .ok versionCfg.ModuleSets

/-- Inner loop of `buildModuleMap`: `for _, modPath = range moduleSet.Modules`.
For each module path: error if it is already in the map (naming the earlier
set and the current set), error if it is excluded, otherwise record
`ModuleInfo{setName, moduleSet.Version}`. -/
def addModulesToMap (versionCfg : versionConfig) (setName version : GoStr) :
    ModuleInfoMap → List ModulePath → Except ToolsError ModuleInfoMap
  | modMap, [] => .ok modMap
  | modMap, modPath :: rest =>
    match lookupL modMap modPath with
    | some info => .error (.duplicateModule modPath info.ModuleSetName setName)
    | none =>
      if shouldExcludeModule versionCfg modPath then
        .error (.excludedModule modPath)
      else
        addModulesToMap versionCfg setName version
          (insertL modMap modPath ⟨setName, version⟩) rest

/-- Outer loop of `buildModuleMap`: `for setName, moduleSet := range versionCfg.ModuleSets`. -/
def buildModuleMapAux (versionCfg : versionConfig) :
    ModuleInfoMap → ModuleSetMap → Except ToolsError ModuleInfoMap
  | modMap, [] => .ok modMap
  | modMap, (setName, moduleSet) :: rest =>
    match addModulesToMap versionCfg setName moduleSet.Version modMap moduleSet.Modules with
    | .error e => .error e
    | .ok modMap2 => buildModuleMapAux versionCfg modMap2 rest

/-- Model of `versionConfig.buildModuleMap`: reverses the module-set map into a
`ModuleInfoMap`, failing on a duplicate or excluded module. -/
def buildModuleMap (versionCfg : versionConfig) : Except ToolsError ModuleInfoMap :=
  buildModuleMapAux versionCfg [] versionCfg.ModuleSets

/-- All module paths listed across the module sets, in declaration order. -/
def membersL : ModuleSetMap → List ModulePath
  | [] => []
  | (_, moduleSet) :: rest => moduleSet.Modules ++ membersL rest

/-- Model of `moduleFilePathToTagName`: strips the `repoRoot + "/"` prefix and
the `"/go.mod"` suffix; the result `"go.mod"` designates the repository root. -/
def moduleFilePathToTagName (modFilePath : ModuleFilePath) (repoRoot : GoStr) :
    Except ToolsError ModuleTagName :=
  if !HasPrefix modFilePath (repoRoot ++ ['/']) then
    .error (.pathOutsideRepo modFilePath repoRoot)
  else if !HasSuffix modFilePath goModFile then
    .error (.invalidManifestPath modFilePath)
  else
    let modTagNameWithGoMod := TrimPrefix modFilePath (repoRoot ++ ['/'])
    let modTagName := TrimSuffix modTagNameWithGoMod ('/' :: goModFile)
    if modTagName = goModFile then .ok repoRootTag
    else .ok modTagName

/-- Model of `CombineModuleTagNamesAndVersion`: the root tag becomes the bare
version, every other tag name becomes `tagName + "/" + version`. -/
def CombineModuleTagNamesAndVersion : List ModuleTagName → GoStr → List GoStr
  | [], _ => []
  | modTagName :: rest, version =>
    (if modTagName = repoRootTag then version else modTagName ++ '/' :: version) ::
      CombineModuleTagNamesAndVersion rest version

/-- Loop of `modulePathsToFilePaths` with the accumulated output slice. -/
def modulePathsToFilePathsAux (modPathMap : ModulePathMap)
    (acc : List ModuleFilePath) :
    List ModulePath → Except ToolsError (List ModuleFilePath)
  | [] => .ok acc
  | modPath :: rest =>
    match lookupL modPathMap modPath with
    | none => .error (.unknownModulePath modPath)
    | some filePath => modulePathsToFilePathsAux modPathMap (acc ++ [filePath]) rest

/-- Model of `modulePathsToFilePaths`: looks up every module path, failing on the
first one missing from the map (the Go code returns an empty slice together with
the error; the `Except.error` case models that no usable result is returned). -/
def modulePathsToFilePaths (modPaths : List ModulePath) (modPathMap : ModulePathMap) :
    Except ToolsError (List ModuleFilePath) :=
  modulePathsToFilePathsAux modPathMap [] modPaths

/-! File-system model for `BuildModulePathMap`.  A tree node is a file or a
directory.  `statErr` set on a node means `filepath.Walk` invokes the callback
for that node with a non-nil error (an `lstat` or directory-read failure); the
callback then prints a warning and returns nil, so the node (and, for a
directory, its subtree) is skipped and the walk continues.  `readErr` on a file
means `ioutil.ReadFile` fails for it.  `modContent` of a file stands for the
module path that `modfile.ModulePath` (an external collaborator) extracts from
the file's bytes.  Children are listed in the lexically sorted order in which
`filepath.Walk` visits them; paths are joined with a single `'/'` (the model of
`filepath.Join` for clean slash-free names). -/

mutual
inductive Entry where
  | file (name : GoStr) (statErr : Bool) (readErr : Bool) (modContent : ModulePath)
  | dir (name : GoStr) (statErr : Bool) (children : EntryList)
inductive EntryList where
  | nil
  | cons (e : Entry) (rest : EntryList)
end

/-- Name of a tree node. -/
def entryName : Entry → GoStr
  | .file n _ _ _ => n
  | .dir n _ _ => n

/-- The branch of the `findGoMod` callback for a file visited without a walk
error: if the base name is `go.mod`, read the file (a read failure is returned
to `filepath.Walk` and aborts it), extract the module path, and record it
unless it is excluded. -/
def findGoModVisit (versionCfg : versionConfig) (filePath : GoStr)
    (readErr : Bool) (modContent : ModulePath) (modPathMap : ModulePathMap) :
    Except ToolsError ModulePathMap :=
  if filepathBase filePath = goModFile then
    if readErr then .error (.manifestReadError filePath)
    else
      let modPath := modContent
      let modFilePath := filePath
      if decide (modPath ∈ getExcludedModules versionCfg) then .ok modPathMap
      else .ok (insertL modPathMap modPath modFilePath)
  else .ok modPathMap

mutual
/-- One visit of `filepath.Walk` with the `findGoMod` callback.  A node with a
walk error is warned about and skipped (for a directory, together with its
subtree).  A directory whose base name is `go.mod` makes the callback call
`ioutil.ReadFile` on a directory, which fails and aborts the walk. -/
def walkEntry (versionCfg : versionConfig) (fullPath : GoStr) (e : Entry)
    (modPathMap : ModulePathMap) : Except ToolsError ModulePathMap :=
  match e with
  | .file _ statErr readErr modContent =>
    if statErr then .ok modPathMap
    else findGoModVisit versionCfg fullPath readErr modContent modPathMap
  | .dir _ statErr children =>
    if statErr then .ok modPathMap
    else if filepathBase fullPath = goModFile then
      .error (.manifestReadError fullPath)
    else walkEntryList versionCfg fullPath children modPathMap
/-- Walks the children of a directory in order, threading the map and stopping
at the first error returned by the callback. -/
def walkEntryList (versionCfg : versionConfig) (dirPath : GoStr) (es : EntryList)
    (modPathMap : ModulePathMap) : Except ToolsError ModulePathMap :=
  match es with
  | .nil => .ok modPathMap
  | .cons e rest =>
    match walkEntry versionCfg (dirPath ++ '/' :: entryName e) e modPathMap with
    | .error err => .error err
    | .ok modPathMap2 => walkEntryList versionCfg dirPath rest modPathMap2
end

/-- Model of `versionConfig.BuildModulePathMap`: walks the repository tree
rooted at `root` (whose path string is the `root` argument itself, as in
`filepath.Walk(string(root), findGoMod)`) and returns the accumulated map, or
the first error the callback returned. -/
def BuildModulePathMap (versionCfg : versionConfig) (root : GoStr) (tree : Entry) :
    Except ToolsError ModulePathMap :=
  walkEntry versionCfg root tree []

/-- Model of `NewModuleVersioningInfo`.  `readResult` stands for the outcome of
`readVersioningFile` (external I/O through the configuration loader): on
failure that function returns the zero value `versionConfig{}` together with an
error, and the call site `vCfg, _ := readVersioningFile(...)` discards the
error.  The three indices are then built in sequence, each failure being
wrapped and returned. -/
def NewModuleVersioningInfo (readResult : Except Unit versionConfig)
    (repoRoot : GoStr) (tree : Entry) : Except ToolsError ModuleVersioning :=
  let vCfg := match readResult with
    | .ok c => c
    | .error _ => { ModuleSets := [], ExcludedModules := [] }
  match buildModuleSetsMap vCfg with
  | .error e => .error (.newInfoSetMapWrap e)
  | .ok modSetMap =>
    match buildModuleMap vCfg with
    | .error e => .error (.newInfoModMapWrap e)
    | .ok modInfoMap =>
      match BuildModulePathMap vCfg repoRoot tree with
      | .error e => .error (.newInfoPathMapWrap e)
      | .ok modPathMap =>
        .ok { ModSetMap := modSetMap, ModPathMap := modPathMap, ModInfoMap := modInfoMap }

/-- Discriminator: does an `Except` result hold a value? -/
def exceptIsOk {α : Type} (r : Except ToolsError α) : Bool :=
  match r with
  | .ok _ => true
  | .error _ => false

/-- Discriminator: is a `buildModuleMap` result a `duplicateModule` error? -/
def errIsDuplicate {α : Type} (r : Except ToolsError α) : Bool :=
  match r with
  | .error (.duplicateModule _ _ _) => true
  | _ => false

/-- Discriminator: is a `buildModuleMap` result an `excludedModule` error? -/
def errIsExcluded {α : Type} (r : Except ToolsError α) : Bool :=
  match r with
  | .error (.excludedModule _) => true
  | _ => false

/-- The value held by a successful result, if any. -/
def okValue {α : Type} (r : Except ToolsError α) : Option α :=
  match r with
  | .ok v => some v
  | .error _ => none

/-! Model of the `golang.org/x/mod/semver` functions used by
`IsStableVersion(v) = semver.Compare(semver.Major(v), "v1") >= 0`.  Byte
comparisons of the Go code are modeled through `Char.toNat`. -/

/-- Digit test `'0' <= c && c <= '9'` on bytes. -/
def isDigitCh (c : Char) : Bool :=
  decide (48 ≤ c.toNat ∧ c.toNat ≤ 57)

/-- `semver.go` `isIdentChar`: ASCII letters, digits and `'-'`. -/
def isIdentChar (c : Char) : Bool :=
  decide ((65 ≤ c.toNat ∧ c.toNat ≤ 90) ∨ (97 ≤ c.toNat ∧ c.toNat ≤ 122) ∨
    (48 ≤ c.toNat ∧ c.toNat ≤ 57) ∨ c.toNat = 45)

/-- `semver.go` `isBadNum`: all digits, longer than one character, leading zero. -/
def isBadNum (v : GoStr) : Bool :=
  v.all isDigitCh && decide (1 < v.length) && (v.headD ' ' == '0')

/-- `semver.go` `parseInt`: a non-empty maximal run of digits with no leading
zero (unless it is exactly `"0"`); returns the run and the remainder. -/
def parseInt (v : GoStr) : Option (GoStr × GoStr) :=
  match v with
  | [] => none
  | c :: _ =>
    if c.toNat < 48 ∨ 57 < c.toNat then none
    else
      let t := v.takeWhile isDigitCh
      let rest := v.dropWhile isDigitCh
      if c.toNat = 48 ∧ t.length ≠ 1 then none
      else some (t, rest)

/-- Splits a string at `'.'` separators, keeping empty segments, as the
`start`/`i` scan of `parsePrerelease` and `parseBuild` does. -/
def segmentsOn : GoStr → List GoStr
  | [] => [[]]
  | c :: rest =>
    if c = '.' then [] :: segmentsOn rest
    else
      match segmentsOn rest with
      | g :: gs => (c :: g) :: gs
      | [] => [[c]]

/-- A valid pre-release identifier: non-empty, ident characters only, and not a
multi-digit number with a leading zero. -/
def okPreSegment (g : GoStr) : Bool :=
  !g.isEmpty && g.all isIdentChar && !isBadNum g

/-- A valid build identifier: non-empty, ident characters only (leading zeros
are allowed here). -/
def okBuildSegment (g : GoStr) : Bool :=
  !g.isEmpty && g.all isIdentChar

/-- `semver.go` `parsePrerelease`: scans after the `'-'` up to a `'+'`,
requiring dot-separated valid identifiers; returns the pre-release including
the `'-'` and the remainder starting at the `'+'`, if any. -/
def parsePrerelease (v : GoStr) : Option (GoStr × GoStr) :=
  match v with
  | [] => none
  | c :: w =>
    if ¬ c = '-' then none
    else
      let body := w.takeWhile (fun d => !(d == '+'))
      let rest := w.dropWhile (fun d => !(d == '+'))
      if (segmentsOn body).all okPreSegment then some ('-' :: body, rest) else none

/-- `semver.go` `parseBuild`: scans the whole remainder after the `'+'`,
requiring dot-separated non-empty ident segments. -/
def parseBuild (v : GoStr) : Option (GoStr × GoStr) :=
  match v with
  | [] => none
  | c :: w =>
    if ¬ c = '+' then none
    else if (segmentsOn w).all okBuildSegment then some ('+' :: w, []) else none

/-- `semver.go` `parsed`: the fields of a parsed semantic version. -/
structure SemParsed where
  major : GoStr
  minor : GoStr
  patch : GoStr
  short : GoStr
  prerelease : GoStr
  build : GoStr
deriving DecidableEq

/-- `semver.go` `parse`: `"v"`, then major, optional `"." minor`, optional
`"." patch`, optional pre-release and build, with nothing left over.  Missing
minor or patch components default to `"0"`. -/
def semparse (v : GoStr) : Option SemParsed :=
  match v with
  | [] => none
  | c :: w =>
    if ¬ c = 'v' then none
    else
      match parseInt w with
      | none => none
      | some (major, r1) =>
        if r1 = [] then
          some ⟨major, ['0'], ['0'], ".0.0".toList, [], []⟩
        else if ¬ r1.headD ' ' = '.' then none
        else
          match parseInt (r1.drop 1) with
          | none => none
          | some (minor, r3) =>
            if r3 = [] then
              some ⟨major, minor, ['0'], ".0".toList, [], []⟩
            else if ¬ r3.headD ' ' = '.' then none
            else
              match parseInt (r3.drop 1) with
              | none => none
              | some (patch, r5) =>
                match (if r5.headD ' ' = '-' then parsePrerelease r5
                       else some ([], r5)) with
                | none => none
                | some (prerelease, r6) =>
                  match (if r6.headD ' ' = '+' then parseBuild r6
                         else some ([], r6)) with
                  | none => none
                  | some (build, r7) =>
                    if r7 = [] then
                      some ⟨major, minor, patch, [], prerelease, build⟩
                    else none

/-- `semver.Major`: the `"v"` plus the major digits of a valid version, and
`""` for an invalid one. -/
def semverMajor (v : GoStr) : GoStr :=
  match semparse v with
  | none => []
  | some p => v.take (1 + p.major.length)

/-- Lexicographic byte-order test, modeling Go `x < y` on strings. -/
def strLtChars : GoStr → GoStr → Bool
  | [], [] => false
  | [], _ :: _ => true
  | _ :: _, [] => false
  | a :: as, b :: bs =>
    if a.toNat < b.toNat then true
    else if b.toNat < a.toNat then false
    else strLtChars as bs

/-- `semver.go` `compareInt`: equal strings are equal; otherwise the shorter
string (fewer digits) is smaller; at equal length, byte order decides. -/
def compareInt (x y : GoStr) : Int :=
  if x = y then 0
  else if x.length < y.length then -1
  else if y.length < x.length then 1
  else if strLtChars x y then -1
  else 1

/-- `semver.go` `nextIdent` segment, and the loop of `comparePrerelease`: skip
the leading `'-'` or `'.'`, compare the next dot-separated identifiers
(numeric ones numerically and before alphanumeric ones), and recurse. -/
def comparePrereleaseLoop : GoStr → GoStr → Int
  | x, y =>
    match x, y with
    | _ :: xs, _ :: ys =>
      let dx := xs.takeWhile (fun c => !(c == '.'))
      let x2 := xs.dropWhile (fun c => !(c == '.'))
      let dy := ys.takeWhile (fun c => !(c == '.'))
      let y2 := ys.dropWhile (fun c => !(c == '.'))
      if dx ≠ dy then
        let ix := dx.all isDigitCh
        let iy := dy.all isDigitCh
        if ix ≠ iy then (if ix then -1 else 1)
        else if ix ∧ dx.length < dy.length then -1
        else if ix ∧ dy.length < dx.length then 1
        else if strLtChars dx dy then -1
        else 1
      else if x2 = [] ∨ y2 = [] then (if x2 = [] then -1 else 1)
      else comparePrereleaseLoop x2 y2
    | _, _ => 0
termination_by x _ => x.length
decreasing_by
  simp only [List.length_cons]
  exact Nat.lt_succ_of_le (List.Sublist.length_le (List.dropWhile_sublist _))

/-- `semver.go` `comparePrerelease`: an empty pre-release sorts after any
non-empty one; otherwise the identifier loop decides. -/
def comparePrerelease (x y : GoStr) : Int :=
  if x = y then 0
  else if x = [] then 1
  else if y = [] then -1
  else comparePrereleaseLoop x y

/-- `semver.Compare`: invalid versions sort before valid ones; valid versions
compare by major, minor, patch, then pre-release. -/
def semverCompare (v w : GoStr) : Int :=
  match semparse v, semparse w with
  | none, none => 0
  | none, some _ => -1
  | some _, none => 1
  | some pv, some pw =>
    let c1 := compareInt pv.major pw.major
    if c1 ≠ 0 then c1
    else
      let c2 := compareInt pv.minor pw.minor
      if c2 ≠ 0 then c2
      else
        let c3 := compareInt pv.patch pw.patch
        if c3 ≠ 0 then c3
        else comparePrerelease pv.prerelease pw.prerelease

/-- Model of `IsStableVersion`: `semver.Compare(semver.Major(v), "v1") >= 0`. -/
def IsStableVersion (v : GoStr) : Bool :=
  decide (0 ≤ semverCompare (semverMajor v) ('v' :: ['1']))

/-- Decimal value of a digit string (the numeric reading used to state the
stability claim; not part of the Go source). -/
def decimalValue (l : GoStr) : Nat :=
  l.foldl (fun a c => a * 10 + (c.toNat - 48)) 0

/-! Helper lemmas about the string primitives and the association-list maps. -/

theorem take_length_append (p s : GoStr) : (p ++ s).take p.length = p := by
  induction p with
  | nil => simp
  | cons a t ih => simp [ih]

theorem drop_length_append (p s : GoStr) : (p ++ s).drop p.length = s := by
  induction p with
  | nil => simp
  | cons a t ih => simp [ih]

theorem hasPrefixOfAppend (p s : GoStr) : HasPrefix (p ++ s) p = true := by
  simp only [HasPrefix, decide_eq_true_eq]
  exact ⟨by simp, take_length_append p s⟩

theorem trimPrefixOfAppend (p s : GoStr) : TrimPrefix (p ++ s) p = s := by
  simp only [TrimPrefix, hasPrefixOfAppend, if_true]
  exact drop_length_append p s

theorem hasSuffixOfAppend (s p : GoStr) : HasSuffix (s ++ p) p = true := by
  simp only [HasSuffix, decide_eq_true_eq]
  constructor
  · simp
  · rw [List.length_append, Nat.add_sub_cancel]
    exact drop_length_append s p

theorem trimSuffixOfAppend (s p : GoStr) : TrimSuffix (s ++ p) p = s := by
  simp only [TrimSuffix, hasSuffixOfAppend, if_true, List.length_append,
    Nat.add_sub_cancel]
  exact take_length_append s p

theorem eq_append_of_hasSuffix {s p : GoStr} (h : HasSuffix s p = true) :
    s = s.take (s.length - p.length) ++ p := by
  simp only [HasSuffix, decide_eq_true_eq] at h
  conv_lhs => rw [← List.take_append_drop (s.length - p.length) s]
  rw [h.2]

theorem lookupL_insertL {V : Type} (m : List (GoStr × V)) (k : GoStr) (v : V)
    (key : GoStr) :
    lookupL (insertL m k v) key = if k = key then some v else lookupL m key := by
  induction m with
  | nil => simp [insertL, lookupL]
  | cons hd tl ih =>
    obtain ⟨k', w⟩ := hd
    by_cases h : k' = k
    · subst h
      simp only [insertL, if_pos rfl, lookupL]
      by_cases h2 : k' = key
      · simp [if_pos h2]
      · simp [if_neg h2]
    · simp only [insertL, if_neg h, lookupL]
      by_cases h2 : k' = key
      · subst h2
        have : ¬ k = k' := fun hh => h hh.symm
        simp [lookupL, if_neg this, ih]
      · simp [lookupL, if_neg h2, ih]

/-- Claim C7: `CombineModuleTagNamesAndVersion` maps each input tag name, in
input order, to the bare version for the root sentinel and to
`tagName + "/" + version` otherwise; in particular combining
`[rootSentinel, "sdk/metric"]` with `"v1.2.3"` yields
`["v1.2.3", "sdk/metric/v1.2.3"]`. -/
theorem combineModuleTagNamesAndVersion_spec :
    (∀ (modTagNames : List ModuleTagName) (version : GoStr),
      CombineModuleTagNamesAndVersion modTagNames version =
        modTagNames.map
          (fun t => if t = repoRootTag then version else t ++ '/' :: version))
    ∧ CombineModuleTagNamesAndVersion [repoRootTag, "sdk/metric".toList]
        ("v1.2.3".toList) = ["v1.2.3".toList, "sdk/metric/v1.2.3".toList] := by
  constructor
  · intro modTagNames version
    induction modTagNames with
    | nil => rfl
    | cons t rest ih => simp only [CombineModuleTagNamesAndVersion, ih, List.map]
  · decide

theorem modulePathsToFilePathsAux_allPresent (modPathMap : ModulePathMap) :
    ∀ (modPaths : List ModulePath) (acc : List ModuleFilePath),
      (∀ p ∈ modPaths, (lookupL modPathMap p).isSome = true) →
      modulePathsToFilePathsAux modPathMap acc modPaths =
        .ok (acc ++ modPaths.map (fun p => (lookupL modPathMap p).getD [])) := by
  intro modPaths
  induction modPaths with
  | nil => intro acc _; simp [modulePathsToFilePathsAux]
  | cons p ps ih =>
    intro acc h
    have hp : (lookupL modPathMap p).isSome = true := h p (by simp)
    cases hl : lookupL modPathMap p with
    | none => rw [hl] at hp; simp at hp
    | some fp =>
      rw [modulePathsToFilePathsAux, hl]
      show modulePathsToFilePathsAux modPathMap (acc ++ [fp]) ps = _
      rw [ih (acc ++ [fp]) (fun q hq => h q (by simp [hq]))]
      simp [hl]

theorem modulePathsToFilePathsAux_firstMissing (modPathMap : ModulePathMap) :
    ∀ (l : List ModulePath) (q : ModulePath) (r : List ModulePath)
      (acc : List ModuleFilePath),
      (∀ p ∈ l, (lookupL modPathMap p).isSome = true) →
      lookupL modPathMap q = none →
      modulePathsToFilePathsAux modPathMap acc (l ++ q :: r) =
        .error (.unknownModulePath q) := by
  intro l
  induction l with
  | nil =>
    intro q r acc _ hq
    rw [List.nil_append, modulePathsToFilePathsAux, hq]
  | cons p ps ih =>
    intro q r acc h hq
    have hp : (lookupL modPathMap p).isSome = true := h p (by simp)
    cases hl : lookupL modPathMap p with
    | none => rw [hl] at hp; simp at hp
    | some fp =>
      rw [List.cons_append, modulePathsToFilePathsAux, hl]
      show modulePathsToFilePathsAux modPathMap (acc ++ [fp]) (ps ++ q :: r) = _
      exact ih q r (acc ++ [fp]) (fun x hx => h x (by simp [hx])) hq

/-- Claim C9: `modulePathsToFilePaths` fails with `unknownModulePath` naming the
first identifier missing from the path index, returning no paths; when every
identifier is present it returns their paths in input order. -/
theorem modulePathsToFilePaths_spec (modPaths : List ModulePath)
    (modPathMap : ModulePathMap) :
    ((∀ p ∈ modPaths, (lookupL modPathMap p).isSome = true) →
      modulePathsToFilePaths modPaths modPathMap =
        .ok (modPaths.map (fun p => (lookupL modPathMap p).getD [])))
    ∧ (∀ (l : List ModulePath) (q : ModulePath) (r : List ModulePath),
        modPaths = l ++ q :: r →
        (∀ p ∈ l, (lookupL modPathMap p).isSome = true) →
        lookupL modPathMap q = none →
        modulePathsToFilePaths modPaths modPathMap =
          .error (.unknownModulePath q)) := by
  constructor
  · intro h
    unfold modulePathsToFilePaths
    rw [modulePathsToFilePathsAux_allPresent modPathMap modPaths [] h]
    simp
  · intro l q r hsplit hpresent hmissing
    unfold modulePathsToFilePaths
    rw [hsplit]
    exact modulePathsToFilePathsAux_firstMissing modPathMap l q r [] hpresent hmissing

/-- Witness for C9: both branches exercised on concrete inputs. -/
theorem modulePathsToFilePaths_spec_witness :
    modulePathsToFilePaths ["a".toList, "missing".toList, "b".toList]
        [("a".toList, "pa".toList), ("b".toList, "pb".toList)] =
      .error (.unknownModulePath ("missing".toList))
    ∧ modulePathsToFilePaths ["a".toList, "b".toList]
        [("a".toList, "pa".toList), ("b".toList, "pb".toList)] =
      .ok ["pa".toList, "pb".toList] := by
  constructor
  · exact (modulePathsToFilePaths_spec _ _).2 ["a".toList] ("missing".toList)
      ["b".toList] rfl (by decide) (by decide)
  · have h := (modulePathsToFilePaths_spec ["a".toList, "b".toList]
      [("a".toList, "pa".toList), ("b".toList, "pb".toList)]).1 (by decide)
    rw [h]
    decide

theorem findGoModVisit_excluded_absent (versionCfg : versionConfig)
    (filePath : GoStr) (readErr : Bool) (modContent : ModulePath)
    (m m2 : ModulePathMap)
    (h : findGoModVisit versionCfg filePath readErr modContent m = .ok m2)
    (hm : ∀ p ∈ versionCfg.ExcludedModules, lookupL m p = none) :
    ∀ p ∈ versionCfg.ExcludedModules, lookupL m2 p = none := by
  intro p hp
  unfold findGoModVisit at h
  by_cases hb : filepathBase filePath = goModFile
  · rw [if_pos hb] at h
    cases readErr with
    | true => simp at h
    | false =>
      simp only [Bool.false_eq_true, if_false] at h
      by_cases he : modContent ∈ getExcludedModules versionCfg
      · rw [if_pos (by exact decide_eq_true he)] at h
        cases h
        exact hm p hp
      · rw [if_neg (by simp [he])] at h
        cases h
        rw [lookupL_insertL]
        have hne : ¬ modContent = p := fun hh => he (hh ▸ hp)
        rw [if_neg hne]
        exact hm p hp
  · rw [if_neg hb] at h
    cases h
    exact hm p hp

mutual
theorem walkEntry_excluded_absent (versionCfg : versionConfig) (fullPath : GoStr)
    (e : Entry) (m m2 : ModulePathMap)
    (h : walkEntry versionCfg fullPath e m = .ok m2)
    (hm : ∀ p ∈ versionCfg.ExcludedModules, lookupL m p = none) :
    ∀ p ∈ versionCfg.ExcludedModules, lookupL m2 p = none := by
  cases e with
  | file n statErr readErr modContent =>
    rw [walkEntry] at h
    cases statErr with
    | true =>
      simp only [if_true] at h
      cases h
      exact hm
    | false =>
      simp only [Bool.false_eq_true, if_false] at h
      exact findGoModVisit_excluded_absent versionCfg fullPath readErr modContent m m2 h hm
  | dir n statErr children =>
    rw [walkEntry] at h
    cases statErr with
    | true =>
      simp only [if_true] at h
      cases h
      exact hm
    | false =>
      simp only [Bool.false_eq_true, if_false] at h
      by_cases hb : filepathBase fullPath = goModFile
      · rw [if_pos hb] at h; cases h
      · rw [if_neg hb] at h
        exact walkEntryList_excluded_absent versionCfg fullPath children m m2 h hm
theorem walkEntryList_excluded_absent (versionCfg : versionConfig)
    (dirPath : GoStr) (es : EntryList) (m m2 : ModulePathMap)
    (h : walkEntryList versionCfg dirPath es m = .ok m2)
    (hm : ∀ p ∈ versionCfg.ExcludedModules, lookupL m p = none) :
    ∀ p ∈ versionCfg.ExcludedModules, lookupL m2 p = none := by
  cases es with
  | nil =>
    rw [walkEntryList] at h
    cases h
    exact hm
  | cons e rest =>
    rw [walkEntryList] at h
    cases hw : walkEntry versionCfg (dirPath ++ '/' :: entryName e) e m with
    | error err => rw [hw] at h; cases h
    | ok m1 =>
      rw [hw] at h
      have hm1 := walkEntry_excluded_absent versionCfg (dirPath ++ '/' :: entryName e)
        e m m1 hw hm
      exact walkEntryList_excluded_absent versionCfg dirPath rest m1 m2 h hm1
end

/-- Claim C6: a successful `BuildModulePathMap` never maps an excluded module
identifier, even when a manifest declaring it exists in the tree. -/
theorem buildModulePathMap_excludes_excluded (versionCfg : versionConfig)
    (root : GoStr) (tree : Entry) (modPathMap : ModulePathMap)
    (h : BuildModulePathMap versionCfg root tree = .ok modPathMap) :
    ∀ p ∈ versionCfg.ExcludedModules, lookupL modPathMap p = none :=
  walkEntry_excluded_absent versionCfg root tree [] modPathMap h
    (fun _ _ => rfl)

/-- Witness for C6: a tree containing a manifest for the excluded module `x`
still yields a map without `x`. -/
theorem buildModulePathMap_excludes_excluded_witness :
    BuildModulePathMap ⟨[], ["x".toList]⟩ ("r".toList)
        (.dir ("r".toList) false
          (.cons (.file ("go.mod".toList) false false ("x".toList)) .nil)) = .ok []
    ∧ lookupL ([] : ModulePathMap) ("x".toList) = none :=
  ⟨by decide,
    buildModulePathMap_excludes_excluded ⟨[], ["x".toList]⟩ ("r".toList)
      (.dir ("r".toList) false
        (.cons (.file ("go.mod".toList) false false ("x".toList)) .nil)) []
      (by decide) ("x".toList) (by decide)⟩

/-- Counterexample for C1: in a tree with three manifests of which the middle
one exists but cannot be read (`ioutil.ReadFile` fails), the walk callback
returns the read error, `filepath.Walk` aborts, and `BuildModulePathMap` fails
instead of succeeding with the two valid entries. -/
theorem buildModulePathMap_readError_aborts :
    BuildModulePathMap ⟨[], []⟩ ("repo".toList)
        (.dir ("repo".toList) false
          (.cons (.dir ("a".toList) false
            (.cons (.file ("go.mod".toList) false false ("ma".toList)) .nil))
          (.cons (.dir ("b".toList) false
            (.cons (.file ("go.mod".toList) false true ("mb".toList)) .nil))
          (.cons (.dir ("c".toList) false
            (.cons (.file ("go.mod".toList) false false ("mc".toList)) .nil))
          .nil)))) = .error (.manifestReadError ("repo/b/go.mod".toList))
    ∧ exceptIsOk (BuildModulePathMap ⟨[], []⟩ ("repo".toList)
        (.dir ("repo".toList) false
          (.cons (.dir ("a".toList) false
            (.cons (.file ("go.mod".toList) false false ("ma".toList)) .nil))
          (.cons (.dir ("b".toList) false
            (.cons (.file ("go.mod".toList) false true ("mb".toList)) .nil))
          (.cons (.dir ("c".toList) false
            (.cons (.file ("go.mod".toList) false false ("mc".toList)) .nil))
          .nil))))) = false :=
  ⟨by decide, by decide⟩

/-- Claim C1 (amended): a manifest whose walk visit reports an error (a stat or
enumeration failure) is warned about and skipped and the walk continues, so the
index holds exactly the entries of the two readable manifests; a manifest whose
content read fails, however, aborts the walk (see the counterexample). -/
theorem buildModulePathMap_statError_skipped (sets : ModuleSetMap)
    (ca cb cc : ModulePath) (hne : ca ≠ cc) :
    BuildModulePathMap ⟨sets, []⟩ ("repo".toList)
        (.dir ("repo".toList) false
          (.cons (.dir ("a".toList) false
            (.cons (.file ("go.mod".toList) false false ca) .nil))
          (.cons (.dir ("b".toList) false
            (.cons (.file ("go.mod".toList) true false cb) .nil))
          (.cons (.dir ("c".toList) false
            (.cons (.file ("go.mod".toList) false false cc) .nil))
          .nil)))) =
      .ok [(ca, "repo/a/go.mod".toList), (cc, "repo/c/go.mod".toList)] := by
  have step : BuildModulePathMap ⟨sets, []⟩ ("repo".toList)
      (.dir ("repo".toList) false
        (.cons (.dir ("a".toList) false
          (.cons (.file ("go.mod".toList) false false ca) .nil))
        (.cons (.dir ("b".toList) false
          (.cons (.file ("go.mod".toList) true false cb) .nil))
        (.cons (.dir ("c".toList) false
          (.cons (.file ("go.mod".toList) false false cc) .nil))
        .nil)))) =
      .ok (insertL [(ca, "repo/a/go.mod".toList)] cc ("repo/c/go.mod".toList)) := rfl
  rw [step]
  simp only [insertL, if_neg hne]

/-- Witness for C1 (amended). -/
theorem buildModulePathMap_statError_skipped_witness :
    BuildModulePathMap ⟨[], []⟩ ("repo".toList)
        (.dir ("repo".toList) false
          (.cons (.dir ("a".toList) false
            (.cons (.file ("go.mod".toList) false false ("ma".toList)) .nil))
          (.cons (.dir ("b".toList) false
            (.cons (.file ("go.mod".toList) true false ("mb".toList)) .nil))
          (.cons (.dir ("c".toList) false
            (.cons (.file ("go.mod".toList) false false ("mc".toList)) .nil))
          .nil)))) =
      .ok [("ma".toList, "repo/a/go.mod".toList), ("mc".toList, "repo/c/go.mod".toList)] :=
  buildModulePathMap_statError_skipped [] ("ma".toList) ("mb".toList) ("mc".toList)
    (by decide)

/-- Counterexample for C2: for the directory named exactly `go.mod`, the tag
conversion collapses to the root sentinel instead of returning the directory
name, because the trimmed tag equals the manifest file name. -/
theorem moduleFilePathToTagName_goModDir :
    moduleFilePathToTagName ("r/go.mod/go.mod".toList) ("r".toList) = .ok repoRootTag
    ∧ moduleFilePathToTagName ("r/go.mod/go.mod".toList) ("r".toList) ≠
        .ok ("go.mod".toList) :=
  ⟨by decide, by decide⟩

/-- Claim C2 (amended): for every root and every non-empty directory `dir` with
no separator at its boundary that is, additionally, not the manifest file name
`go.mod` itself, converting `root + "/" + dir + "/go.mod"` yields exactly
`dir`; converting `root + "/go.mod"` yields the root sentinel. -/
theorem moduleFilePathToTagName_roundTrip (root dir : GoStr) (hne : dir ≠ [])
    (hhead : dir.headD ' ' ≠ '/') (hlast : dir.getLastD ' ' ≠ '/')
    (hgm : dir ≠ goModFile) :
    moduleFilePathToTagName (root ++ '/' :: (dir ++ '/' :: goModFile)) root = .ok dir
    ∧ moduleFilePathToTagName (root ++ '/' :: goModFile) root = .ok repoRootTag := by
  constructor
  · have hP : root ++ '/' :: (dir ++ '/' :: goModFile) =
        (root ++ ['/']) ++ (dir ++ '/' :: goModFile) := by simp
    have h2 : HasSuffix ((root ++ ['/']) ++ (dir ++ '/' :: goModFile)) goModFile
        = true := by
      rw [show (root ++ ['/']) ++ (dir ++ '/' :: goModFile) =
        ((root ++ ['/']) ++ (dir ++ ['/'])) ++ goModFile by simp]
      exact hasSuffixOfAppend _ _
    rw [hP]
    simp only [moduleFilePathToTagName, hasPrefixOfAppend, h2, trimPrefixOfAppend,
      Bool.not_true, Bool.false_eq_true, if_false]
    rw [show dir ++ '/' :: goModFile = dir ++ ('/' :: goModFile) from rfl,
      trimSuffixOfAppend]
    rw [if_neg hgm]
  · have hP : root ++ '/' :: goModFile = (root ++ ['/']) ++ goModFile := by simp
    have h2 : HasSuffix ((root ++ ['/']) ++ goModFile) goModFile = true :=
      hasSuffixOfAppend _ _
    rw [hP]
    simp only [moduleFilePathToTagName, hasPrefixOfAppend, h2, trimPrefixOfAppend,
      Bool.not_true, Bool.false_eq_true, if_false]
    rw [show TrimSuffix goModFile ('/' :: goModFile) = goModFile from by decide]
    rw [if_pos rfl]

/-- Witness for C2 (amended). -/
theorem moduleFilePathToTagName_roundTrip_witness :
    moduleFilePathToTagName ("r".toList ++ '/' :: ("sdk".toList ++ '/' :: goModFile))
        ("r".toList) = .ok ("sdk".toList)
    ∧ moduleFilePathToTagName ("r".toList ++ '/' :: goModFile) ("r".toList) =
        .ok repoRootTag :=
  moduleFilePathToTagName_roundTrip ("r".toList) ("sdk".toList) (by decide)
    (by decide) (by decide) (by decide)

/-- Counterexample for C10: when reading the versioning file fails but the tree
holds a manifest for module `x`, the returned `ModPathMap` is non-empty, so the
three indices are not all empty. -/
theorem newModuleVersioningInfo_pathMapNonempty :
    NewModuleVersioningInfo (.error ()) ("r".toList)
        (.dir ("r".toList) false
          (.cons (.dir ("a".toList) false
            (.cons (.file ("go.mod".toList) false false ("x".toList)) .nil)) .nil)) =
      .ok ⟨[], [("x".toList, "r/a/go.mod".toList)], []⟩
    ∧ [("x".toList, "r/a/go.mod".toList)] ≠ ([] : ModulePathMap) :=
  ⟨by decide, by decide⟩

/-- Claim C10 (amended): when reading the versioning configuration fails,
`NewModuleVersioningInfo` discards the read error and proceeds with the
zero-value configuration: the module-set and module-info indices are empty, and
the result is the outcome of walking the repository with no exclusions — a
possibly non-empty path index on success, or the wrapped walk error. -/
theorem newModuleVersioningInfo_discardsReadError (repoRoot : GoStr) (tree : Entry) :
    NewModuleVersioningInfo (.error ()) repoRoot tree =
      match BuildModulePathMap ⟨[], []⟩ repoRoot tree with
      | .ok m => .ok ⟨[], m, []⟩
      | .error e => .error (.newInfoPathMapWrap e) := by
  unfold NewModuleVersioningInfo
  cases h : BuildModulePathMap ⟨[], []⟩ repoRoot tree with
  | ok m => simp [buildModuleSetsMap, buildModuleMap, buildModuleMapAux, h]
  | error e => simp [buildModuleSetsMap, buildModuleMap, buildModuleMapAux, h]

theorem addModulesToMap_ok (versionCfg : versionConfig) (setName version : GoStr) :
    ∀ (modPaths : List ModulePath) (modMap modMap2 : ModuleInfoMap),
      addModulesToMap versionCfg setName version modMap modPaths = .ok modMap2 →
      (∀ p ∈ modPaths, lookupL modMap p = none) ∧
      modPaths.Nodup ∧
      (∀ p ∈ modPaths, shouldExcludeModule versionCfg p = false) ∧
      (∀ k, lookupL modMap2 k =
        if k ∈ modPaths then some ⟨setName, version⟩ else lookupL modMap k) := by
  intro modPaths
  induction modPaths with
  | nil =>
    intro modMap modMap2 h
    rw [addModulesToMap] at h
    cases h
    exact ⟨by simp, List.nodup_nil, by simp, fun k => by simp⟩
  | cons p ps ih =>
    intro modMap modMap2 h
    rw [addModulesToMap] at h
    cases hl : lookupL modMap p with
    | some info => rw [hl] at h; cases h
    | none =>
      rw [hl] at h
      by_cases hex : shouldExcludeModule versionCfg p = true
      · rw [if_pos hex] at h; cases h
      · rw [if_neg hex] at h
        obtain ⟨h1, h2, h3, h4⟩ :=
          ih (insertL modMap p ⟨setName, version⟩) modMap2 h
        have hpm : ∀ q ∈ ps, ¬ p = q ∧ lookupL modMap q = none := by
          intro q hq
          have := h1 q hq
          rw [lookupL_insertL] at this
          by_cases hpq : p = q
          · rw [if_pos hpq] at this; cases this
          · rw [if_neg hpq] at this; exact ⟨hpq, this⟩
        refine ⟨?_, ?_, ?_, ?_⟩
        · intro q hq
          rcases List.mem_cons.1 hq with hq | hq
          · exact hq ▸ hl
          · exact (hpm q hq).2
        · refine List.nodup_cons.2 ⟨?_, h2⟩
          intro hmem
          exact (hpm p hmem).1 rfl
        · intro q hq
          rcases List.mem_cons.1 hq with hq | hq
          · subst hq
            exact Bool.not_eq_true _ ▸ (Bool.eq_false_iff.2 hex)
          · exact h3 q hq
        · intro k
          rw [h4 k, lookupL_insertL]
          by_cases hk1 : k ∈ ps
          · rw [if_pos hk1, if_pos (List.mem_cons.2 (Or.inr hk1))]
          · rw [if_neg hk1]
            by_cases hk2 : p = k
            · rw [if_pos hk2, if_pos (List.mem_cons.2 (Or.inl hk2.symm))]
            · rw [if_neg hk2, if_neg (by
                intro hmem
                rcases List.mem_cons.1 hmem with hh | hh
                · exact hk2 hh.symm
                · exact hk1 hh)]

theorem buildModuleMapAux_ok (versionCfg : versionConfig) :
    ∀ (sets : ModuleSetMap) (modMap M : ModuleInfoMap),
      buildModuleMapAux versionCfg modMap sets = .ok M →
      (∀ p ∈ membersL sets, lookupL modMap p = none) ∧
      (∀ p ∈ membersL sets, shouldExcludeModule versionCfg p = false) ∧
      (∀ k, k ∉ membersL sets → lookupL M k = lookupL modMap k) ∧
      (∀ s ∈ sets, ∀ p ∈ s.2.Modules,
        lookupL M p = some ⟨s.1, s.2.Version⟩) := by
  intro sets
  induction sets with
  | nil =>
    intro modMap M h
    rw [buildModuleMapAux] at h
    cases h
    exact ⟨by simp [membersL], by simp [membersL], fun k _ => rfl, by simp⟩
  | cons hd rest ih =>
    obtain ⟨setName, ms⟩ := hd
    intro modMap M h
    rw [buildModuleMapAux] at h
    cases haa : addModulesToMap versionCfg setName ms.Version modMap ms.Modules with
    | error e => rw [haa] at h; cases h
    | ok m1 =>
      rw [haa] at h
      obtain ⟨a1, a2, a3, a4⟩ := addModulesToMap_ok versionCfg setName ms.Version
        ms.Modules modMap m1 haa
      obtain ⟨i1, i2, i3, i4⟩ := ih m1 M h
      have hmem : ∀ p, p ∈ membersL ((setName, ms) :: rest) ↔
          p ∈ ms.Modules ∨ p ∈ membersL rest := by
        intro p; rw [membersL]; exact List.mem_append
      refine ⟨?_, ?_, ?_, ?_⟩
      · intro p hp
        rcases (hmem p).1 hp with hp | hp
        · exact a1 p hp
        · have := i1 p hp
          rw [a4 p] at this
          by_cases hin : p ∈ ms.Modules
          · rw [if_pos hin] at this; cases this
          · rw [if_neg hin] at this; exact this
      · intro p hp
        rcases (hmem p).1 hp with hp | hp
        · exact a3 p hp
        · exact i2 p hp
      · intro k hk
        have hk1 : k ∉ ms.Modules := fun hh => hk ((hmem k).2 (Or.inl hh))
        have hk2 : k ∉ membersL rest := fun hh => hk ((hmem k).2 (Or.inr hh))
        rw [i3 k hk2, a4 k, if_neg hk1]
      · intro s hs p hp
        rcases List.mem_cons.1 hs with hs | hs
        · subst hs
          have hnr : p ∉ membersL rest := by
            intro hh
            have := i1 p hh
            rw [a4 p, if_pos hp] at this
            cases this
          rw [i3 p hnr, a4 p, if_pos hp]
        · exact i4 s hs p hp

theorem addModulesToMap_err (versionCfg : versionConfig) (setName version : GoStr) :
    ∀ (modPaths : List ModulePath) (modMap : ModuleInfoMap) (e : ToolsError),
      addModulesToMap versionCfg setName version modMap modPaths = .error e →
      (∃ q n1, e = .duplicateModule q n1 setName ∧ q ∈ modPaths) ∨
      (∃ q, e = .excludedModule q ∧ q ∈ modPaths ∧
        shouldExcludeModule versionCfg q = true) := by
  intro modPaths
  induction modPaths with
  | nil => intro modMap e h; rw [addModulesToMap] at h; cases h
  | cons p ps ih =>
    intro modMap e h
    rw [addModulesToMap] at h
    cases hl : lookupL modMap p with
    | some info =>
      rw [hl] at h
      cases h
      exact Or.inl ⟨p, info.ModuleSetName, rfl, by simp⟩
    | none =>
      rw [hl] at h
      by_cases hex : shouldExcludeModule versionCfg p = true
      · rw [if_pos hex] at h
        cases h
        exact Or.inr ⟨p, rfl, by simp, hex⟩
      · rw [if_neg hex] at h
        rcases ih (insertL modMap p ⟨setName, version⟩) e h with
          ⟨q, n1, he, hq⟩ | ⟨q, he, hq, hqe⟩
        · exact Or.inl ⟨q, n1, he, List.mem_cons.2 (Or.inr hq)⟩
        · exact Or.inr ⟨q, he, List.mem_cons.2 (Or.inr hq), hqe⟩

theorem addModulesToMap_err_dup (versionCfg : versionConfig)
    (setName version : GoStr) :
    ∀ (modPaths : List ModulePath) (modMap : ModuleInfoMap)
      (q n1 n2 : GoStr), modPaths.Nodup →
      addModulesToMap versionCfg setName version modMap modPaths =
        .error (.duplicateModule q n1 n2) →
      n2 = setName ∧ q ∈ modPaths ∧
        ∃ info, lookupL modMap q = some info ∧ n1 = info.ModuleSetName := by
  intro modPaths
  induction modPaths with
  | nil => intro modMap q n1 n2 _ h; rw [addModulesToMap] at h; cases h
  | cons p ps ih =>
    intro modMap q n1 n2 hnd h
    rw [addModulesToMap] at h
    cases hl : lookupL modMap p with
    | some info =>
      rw [hl] at h
      simp only [Except.error.injEq, ToolsError.duplicateModule.injEq] at h
      obtain ⟨hq, hn1, hn2⟩ := h
      subst hq
      exact ⟨hn2.symm, by simp, info, hl, hn1.symm⟩
    | none =>
      rw [hl] at h
      by_cases hex : shouldExcludeModule versionCfg p = true
      · rw [if_pos hex] at h; cases h
      · rw [if_neg hex] at h
        obtain ⟨hn2, hq, info, hli, hn1⟩ :=
          ih (insertL modMap p ⟨setName, version⟩) q n1 n2
            (List.nodup_cons.1 hnd).2 h
        have hpq : ¬ p = q := by
          intro hh
          exact (List.nodup_cons.1 hnd).1 (hh ▸ hq)
        rw [lookupL_insertL, if_neg hpq] at hli
        exact ⟨hn2, List.mem_cons.2 (Or.inr hq), info, hli, hn1⟩

theorem buildModuleMapAux_err_excl (versionCfg : versionConfig) :
    ∀ (sets : ModuleSetMap) (modMap : ModuleInfoMap) (e : ToolsError),
      (∀ p ∈ membersL sets, lookupL modMap p = none) →
      (membersL sets).Nodup →
      buildModuleMapAux versionCfg modMap sets = .error e →
      ∃ q, e = .excludedModule q ∧ q ∈ membersL sets ∧
        shouldExcludeModule versionCfg q = true := by
  intro sets
  induction sets with
  | nil => intro modMap e _ _ h; rw [buildModuleMapAux] at h; cases h
  | cons hd rest ih =>
    obtain ⟨setName, ms⟩ := hd
    intro modMap e hfresh hnd h
    rw [buildModuleMapAux] at h
    have hmem : ∀ p, p ∈ membersL ((setName, ms) :: rest) ↔
        p ∈ ms.Modules ∨ p ∈ membersL rest := by
      intro p; rw [membersL]; exact List.mem_append
    rw [membersL] at hnd
    obtain ⟨nd1, nd2, ndisj⟩ := List.nodup_append.1 hnd
    cases haa : addModulesToMap versionCfg setName ms.Version modMap ms.Modules with
    | error e0 =>
      rw [haa] at h
      cases h
      rcases addModulesToMap_err versionCfg setName ms.Version ms.Modules modMap
        _ haa with ⟨q, n1, he, hq⟩ | ⟨q, he, hq, hqe⟩
      · subst he
        obtain ⟨_, _, info, hli, _⟩ := addModulesToMap_err_dup versionCfg setName
          ms.Version ms.Modules modMap q n1 setName nd1 haa
        have := hfresh q ((hmem q).2 (Or.inl hq))
        rw [this] at hli
        cases hli
      · exact ⟨q, he, (hmem q).2 (Or.inl hq), hqe⟩
    | ok m1 =>
      rw [haa] at h
      obtain ⟨a1, a2, a3, a4⟩ := addModulesToMap_ok versionCfg setName ms.Version
        ms.Modules modMap m1 haa
      obtain ⟨q, he, hq, hqe⟩ := ih m1 e
        (by
          intro p hp
          rw [a4 p, if_neg (fun hh => ndisj hh hp)]
          exact hfresh p ((hmem p).2 (Or.inr hp)))
        nd2 h
      exact ⟨q, he, (hmem q).2 (Or.inr hq), hqe⟩

theorem buildModuleMapAux_err_dup (versionCfg : versionConfig) :
    ∀ (sets : ModuleSetMap) (modMap : ModuleInfoMap) (e : ToolsError),
      (∀ p ∈ membersL sets, shouldExcludeModule versionCfg p = false) →
      (∀ s ∈ sets, s.2.Modules.Nodup) →
      (sets.map Prod.fst).Nodup →
      (∀ s ∈ sets, s ∈ versionCfg.ModuleSets) →
      (∀ k info, lookupL modMap k = some info →
        (∃ ms1, (info.ModuleSetName, ms1) ∈ versionCfg.ModuleSets ∧
          k ∈ ms1.Modules) ∧
        info.ModuleSetName ∉ sets.map Prod.fst) →
      buildModuleMapAux versionCfg modMap sets = .error e →
      ∃ q n1 n2, e = .duplicateModule q n1 n2 ∧ ¬ n1 = n2 ∧
        (∃ ms1, (n1, ms1) ∈ versionCfg.ModuleSets ∧ q ∈ ms1.Modules) ∧
        (∃ ms2, (n2, ms2) ∈ versionCfg.ModuleSets ∧ q ∈ ms2.Modules) := by
  intro sets
  induction sets with
  | nil => intro modMap e _ _ _ _ _ h; rw [buildModuleMapAux] at h; cases h
  | cons hd rest ih =>
    obtain ⟨setName, ms⟩ := hd
    intro modMap e hnoexcl hsetnd hnames hsub hinv h
    rw [buildModuleMapAux] at h
    have hmem : ∀ p, p ∈ membersL ((setName, ms) :: rest) ↔
        p ∈ ms.Modules ∨ p ∈ membersL rest := by
      intro p; rw [membersL]; exact List.mem_append
    cases haa : addModulesToMap versionCfg setName ms.Version modMap ms.Modules with
    | error e0 =>
      rw [haa] at h
      cases h
      rcases addModulesToMap_err versionCfg setName ms.Version ms.Modules modMap
        _ haa with ⟨q, n1, he, hq⟩ | ⟨q, he, hq, hqe⟩
      · subst he
        obtain ⟨_, _, info, hli, hn1⟩ := addModulesToMap_err_dup versionCfg setName
          ms.Version ms.Modules modMap q n1 setName
          (hsetnd (setName, ms) (List.mem_cons_self _ _)) haa
        obtain ⟨hsrc, hnot⟩ := hinv q info hli
        refine ⟨q, n1, setName, rfl, ?_, ?_, ms, hsub (setName, ms) (List.mem_cons_self _ _), hq⟩
        · intro hh
          apply hnot
          rw [← hn1, hh, List.map_cons]
          exact List.mem_cons_self _ _
        · rw [hn1]
          exact hsrc
      · rw [hnoexcl q ((hmem q).2 (Or.inl hq))] at hqe
        cases hqe
    | ok m1 =>
      rw [haa] at h
      obtain ⟨a1, a2, a3, a4⟩ := addModulesToMap_ok versionCfg setName ms.Version
        ms.Modules modMap m1 haa
      have hnames2 := hnames
      rw [List.map_cons, List.nodup_cons] at hnames2
      refine ih m1 e
        (fun p hp => hnoexcl p ((hmem p).2 (Or.inr hp)))
        (fun s hs => hsetnd s (List.mem_cons.2 (Or.inr hs)))
        hnames2.2
        (fun s hs => hsub s (List.mem_cons.2 (Or.inr hs)))
        ?_ h
      intro k info hki
      rw [a4 k] at hki
      by_cases hk : k ∈ ms.Modules
      · rw [if_pos hk] at hki
        cases hki
        exact ⟨⟨ms, hsub (setName, ms) (List.mem_cons_self _ _), hk⟩, hnames2.1⟩
      · rw [if_neg hk] at hki
        obtain ⟨hsrc, hnot⟩ := hinv k info hki
        refine ⟨hsrc, fun hh => hnot ?_⟩
        rw [List.map_cons]
        exact List.mem_cons.2 (Or.inr hh)

/-- Counterexample for C4: the module `m` appears in the two different sets `A`
and `B`, but since `m` is also excluded, the exclusion check fires at its first
occurrence and construction fails with `excludedModule`, not with a
`duplicateModule` error naming both set names. -/
theorem buildModuleMap_exclBeforeDup :
    buildModuleMap ⟨[("A".toList, ⟨"v1".toList, ["m".toList]⟩),
        ("B".toList, ⟨"v2".toList, ["m".toList]⟩)], ["m".toList]⟩ =
      .error (.excludedModule ("m".toList))
    ∧ errIsDuplicate (buildModuleMap ⟨[("A".toList, ⟨"v1".toList, ["m".toList]⟩),
        ("B".toList, ⟨"v2".toList, ["m".toList]⟩)], ["m".toList]⟩) = false :=
  ⟨by decide, by decide⟩

/-- Claim C4 (amended): in a configuration whose set names are unique, whose
per-set module lists have no internal repetition, and in which no listed module
is excluded, a module appearing in two different sets makes `buildModuleMap`
fail with a `duplicateModule` error naming the module and two distinct set
names that both list it, and no index is returned. -/
theorem buildModuleMap_duplicate (versionCfg : versionConfig)
    (hnames : (versionCfg.ModuleSets.map Prod.fst).Nodup)
    (hsetnd : ∀ s ∈ versionCfg.ModuleSets, s.2.Modules.Nodup)
    (hnoexcl : ∀ p ∈ membersL versionCfg.ModuleSets,
      shouldExcludeModule versionCfg p = false)
    (hdup : ∃ p s1 s2, s1 ∈ versionCfg.ModuleSets ∧ s2 ∈ versionCfg.ModuleSets ∧
      ¬ s1.1 = s2.1 ∧ p ∈ s1.2.Modules ∧ p ∈ s2.2.Modules) :
    ∃ q n1 n2, buildModuleMap versionCfg = .error (.duplicateModule q n1 n2) ∧
      ¬ n1 = n2 ∧
      (∃ ms1, (n1, ms1) ∈ versionCfg.ModuleSets ∧ q ∈ ms1.Modules) ∧
      (∃ ms2, (n2, ms2) ∈ versionCfg.ModuleSets ∧ q ∈ ms2.Modules) := by
  obtain ⟨p, s1, s2, hs1, hs2, hne, hp1, hp2⟩ := hdup
  cases hres : buildModuleMap versionCfg with
  | ok M =>
    obtain ⟨_, _, _, o4⟩ := buildModuleMapAux_ok versionCfg
      versionCfg.ModuleSets [] M hres
    have e1 := o4 s1 hs1 p hp1
    have e2 := o4 s2 hs2 p hp2
    rw [e1] at e2
    exact absurd (congrArg ModuleInfo.ModuleSetName (Option.some.inj e2)) hne
  | error e =>
    obtain ⟨q, n1, n2, he, hn, hm1, hm2⟩ := buildModuleMapAux_err_dup versionCfg
      versionCfg.ModuleSets [] e hnoexcl hsetnd hnames (fun _ hs => hs)
      (fun k info hki => by cases hki) hres
    refine ⟨q, n1, n2, ?_, hn, hm1, hm2⟩
    rw [he]

/-- Witness for C4 (amended). -/
theorem buildModuleMap_duplicate_witness :
    ∃ q n1 n2,
      buildModuleMap ⟨[("A".toList, ⟨"v1".toList, ["m".toList]⟩),
          ("B".toList, ⟨"v2".toList, ["m".toList]⟩)], []⟩ =
        .error (.duplicateModule q n1 n2) ∧
      ¬ n1 = n2 ∧
      (∃ ms1, (n1, ms1) ∈ [("A".toList, (⟨"v1".toList, ["m".toList]⟩ : ModuleSet)),
          ("B".toList, ⟨"v2".toList, ["m".toList]⟩)] ∧ q ∈ ms1.Modules) ∧
      (∃ ms2, (n2, ms2) ∈ [("A".toList, (⟨"v1".toList, ["m".toList]⟩ : ModuleSet)),
          ("B".toList, ⟨"v2".toList, ["m".toList]⟩)] ∧ q ∈ ms2.Modules) :=
  buildModuleMap_duplicate
    ⟨[("A".toList, ⟨"v1".toList, ["m".toList]⟩),
      ("B".toList, ⟨"v2".toList, ["m".toList]⟩)], []⟩
    (by decide) (by decide) (by decide)
    ⟨"m".toList, ("A".toList, ⟨"v1".toList, ["m".toList]⟩),
      ("B".toList, ⟨"v2".toList, ["m".toList]⟩),
      by decide, by decide, by decide, by decide, by decide⟩

/-- Counterexample for C5: the module `m` is both listed in `setA` and
excluded, yet construction fails with a `duplicateModule` error (for the
repeated `n` encountered first), not with `excludedModule` naming `m`. -/
theorem buildModuleMap_dupBeforeExcl :
    buildModuleMap ⟨[("setA".toList,
        ⟨"v1".toList, ["n".toList, "n".toList, "m".toList]⟩)], ["m".toList]⟩ =
      .error (.duplicateModule ("n".toList) ("setA".toList) ("setA".toList))
    ∧ errIsExcluded (buildModuleMap ⟨[("setA".toList,
        ⟨"v1".toList, ["n".toList, "n".toList, "m".toList]⟩)], ["m".toList]⟩) =
      false :=
  ⟨by decide, by decide⟩

/-- Claim C5 (amended): in a configuration whose full module listing has no
repetition, an identifier both listed in a module set and excluded makes
`buildModuleMap` fail with an `excludedModule` error naming such an identifier
(the first one encountered), and no index is returned. -/
theorem buildModuleMap_excludedConflict (versionCfg : versionConfig)
    (hnd : (membersL versionCfg.ModuleSets).Nodup)
    (hex : ∃ q, q ∈ membersL versionCfg.ModuleSets ∧
      shouldExcludeModule versionCfg q = true) :
    ∃ q, buildModuleMap versionCfg = .error (.excludedModule q) ∧
      q ∈ membersL versionCfg.ModuleSets ∧
      shouldExcludeModule versionCfg q = true := by
  obtain ⟨q0, hq0, hq0e⟩ := hex
  cases hres : buildModuleMap versionCfg with
  | ok M =>
    obtain ⟨_, o2, _, _⟩ := buildModuleMapAux_ok versionCfg
      versionCfg.ModuleSets [] M hres
    rw [o2 q0 hq0] at hq0e
    cases hq0e
  | error e =>
    obtain ⟨q, he, hq, hqe⟩ := buildModuleMapAux_err_excl versionCfg
      versionCfg.ModuleSets [] e (fun _ _ => rfl) hnd hres
    refine ⟨q, ?_, hq, hqe⟩
    rw [he]

/-- Witness for C5 (amended). -/
theorem buildModuleMap_excludedConflict_witness :
    ∃ q, buildModuleMap ⟨[("A".toList, ⟨"v1".toList, ["n".toList, "m".toList]⟩)],
        ["m".toList]⟩ = .error (.excludedModule q) ∧
      q ∈ membersL [("A".toList, ⟨"v1".toList, ["n".toList, "m".toList]⟩)] ∧
      shouldExcludeModule ⟨[("A".toList, ⟨"v1".toList, ["n".toList, "m".toList]⟩)],
        ["m".toList]⟩ q = true :=
  buildModuleMap_excludedConflict
    ⟨[("A".toList, ⟨"v1".toList, ["n".toList, "m".toList]⟩)], ["m".toList]⟩
    (by decide) ⟨"m".toList, by decide, by decide⟩

theorem drop_length_add_append (X r : GoStr) (k : Nat) :
    (X ++ r).drop (X.length + k) = r.drop k := by
  induction X with
  | nil => simp
  | cons a t ih =>
    simp only [List.cons_append, List.length_cons, List.drop_succ_cons,
      Nat.succ_add]
    exact ih

theorem moduleFilePathToTagName_eval (root rest : GoStr) :
    moduleFilePathToTagName ((root ++ ['/']) ++ rest) root =
      if HasSuffix ((root ++ ['/']) ++ rest) goModFile = true then
        (if TrimSuffix rest ('/' :: goModFile) = goModFile then
          Except.ok repoRootTag
         else Except.ok (TrimSuffix rest ('/' :: goModFile)))
      else Except.error (.invalidManifestPath ((root ++ ['/']) ++ rest)) := by
  by_cases hs : HasSuffix ((root ++ ['/']) ++ rest) goModFile = true
  · simp only [moduleFilePathToTagName, hasPrefixOfAppend, hs,
      trimPrefixOfAppend, Bool.not_true, Bool.false_eq_true, if_false, if_true]
  · rw [Bool.not_eq_true] at hs
    simp only [moduleFilePathToTagName, hasPrefixOfAppend, hs,
      trimPrefixOfAppend, Bool.not_true, Bool.not_false, Bool.false_eq_true,
      if_false, if_true]

/-- Counterexample for C3: the path `r/repoRootTag/go.mod` is not the manifest
directly at the repository root, yet the conversion returns the distinguished
root sentinel, because the sentinel is a magic string compared against the
computed tag. -/
theorem moduleFilePathToTagName_magicString :
    moduleFilePathToTagName ("r/repoRootTag/go.mod".toList) ("r".toList) =
      .ok repoRootTag
    ∧ "r/repoRootTag/go.mod".toList ≠ "r".toList ++ '/' :: goModFile :=
  ⟨by decide, by decide⟩

/-- Claim C3 (amended): for a path `root + "/" + rest` accepted by the
conversion, the root sentinel is returned precisely when `rest` is `go.mod`,
`go.mod/go.mod`, or `repoRootTag/go.mod`; every other accepted path yields some
tag (which, by the equivalence, is not the sentinel). -/
theorem moduleFilePathToTagName_rootTagIff (root rest : GoStr) :
    (moduleFilePathToTagName ((root ++ ['/']) ++ rest) root = .ok repoRootTag ↔
      (rest = goModFile ∨ rest = goModFile ++ '/' :: goModFile ∨
        rest = repoRootTag ++ '/' :: goModFile))
    ∧ (HasSuffix ((root ++ ['/']) ++ rest) goModFile = true →
        ∃ t, moduleFilePathToTagName ((root ++ ['/']) ++ rest) root = .ok t) := by
  have hsfx : ∀ d : GoStr,
      HasSuffix ((root ++ ['/']) ++ (d ++ '/' :: goModFile)) goModFile = true := by
    intro d
    rw [show (root ++ ['/']) ++ (d ++ '/' :: goModFile) =
      ((root ++ ['/']) ++ (d ++ ['/'])) ++ goModFile by simp]
    exact hasSuffixOfAppend _ _
  constructor
  · constructor
    · intro h
      rw [moduleFilePathToTagName_eval] at h
      by_cases hs : HasSuffix ((root ++ ['/']) ++ rest) goModFile = true
      · rw [if_pos hs] at h
        by_cases hts : TrimSuffix rest ('/' :: goModFile) = goModFile
        · by_cases hsf : HasSuffix rest ('/' :: goModFile) = true
          · have hr := eq_append_of_hasSuffix hsf
            rw [TrimSuffix, if_pos hsf] at hts
            right; left
            rw [hr, hts]
          · rw [TrimSuffix, if_neg (by simp [hsf])] at hts
            exact Or.inl hts
        · rw [if_neg hts] at h
          have heq : TrimSuffix rest ('/' :: goModFile) = repoRootTag :=
            Except.ok.inj h
          by_cases hsf : HasSuffix rest ('/' :: goModFile) = true
          · have hr := eq_append_of_hasSuffix hsf
            rw [TrimSuffix, if_pos hsf] at heq
            right; right
            rw [hr, heq]
          · exfalso
            rw [TrimSuffix, if_neg (by simp [hsf])] at heq
            subst heq
            simp only [HasSuffix, decide_eq_true_eq] at hs
            obtain ⟨hlen, hdrop⟩ := hs
            rw [List.length_append] at hdrop
            have hl1 : repoRootTag.length = 11 := by decide
            have hl2 : goModFile.length = 6 := by decide
            rw [show (root ++ ['/']).length + repoRootTag.length - goModFile.length
              = (root ++ ['/']).length + (repoRootTag.length - goModFile.length) by
                rw [hl1, hl2]
                omega] at hdrop
            rw [drop_length_add_append] at hdrop
            exact absurd hdrop (by decide)
      · rw [if_neg hs] at h
        cases h
    · intro h
      rw [moduleFilePathToTagName_eval]
      rcases h with h | h | h
      · subst h
        rw [if_pos (hasSuffixOfAppend (root ++ ['/']) goModFile)]
        rw [if_pos (by decide)]
      · subst h
        rw [show goModFile ++ '/' :: goModFile = goModFile ++ ('/' :: goModFile)
          from rfl]
        rw [if_pos (hsfx goModFile), trimSuffixOfAppend, if_pos rfl]
      · subst h
        rw [show repoRootTag ++ '/' :: goModFile = repoRootTag ++ ('/' :: goModFile)
          from rfl]
        rw [if_pos (hsfx repoRootTag), trimSuffixOfAppend,
          if_neg (by decide)]
  · intro hs
    rw [moduleFilePathToTagName_eval, if_pos hs]
    by_cases hts : TrimSuffix rest ('/' :: goModFile) = goModFile
    · exact ⟨repoRootTag, by rw [if_pos hts]⟩
    · exact ⟨TrimSuffix rest ('/' :: goModFile), by rw [if_neg hts]⟩

/-- Witness for C3 (amended): the conversion succeeds for a path ending in the
manifest name, exercising the hypothesis of the second conjunct. -/
theorem moduleFilePathToTagName_rootTagIff_witness :
    ∃ t, moduleFilePathToTagName (("r".toList ++ ['/']) ++ "sdk/go.mod".toList)
      ("r".toList) = .ok t :=
  (moduleFilePathToTagName_rootTagIff ("r".toList) ("sdk/go.mod".toList)).2
    (by decide)

theorem charToNat_inj {a b : Char} (h : a.toNat = b.toNat) : a = b :=
  Char.ext (UInt32.toNat.inj h)

theorem takeWhile_of_all {l : GoStr} {p : Char → Bool}
    (h : ∀ c ∈ l, p c = true) : l.takeWhile p = l := by
  induction l with
  | nil => rfl
  | cons a t ih =>
    rw [List.takeWhile_cons_of_pos (h a (by simp))]
    rw [ih (fun c hc => h c (by simp [hc]))]

theorem dropWhile_of_all {l : GoStr} {p : Char → Bool}
    (h : ∀ c ∈ l, p c = true) : l.dropWhile p = [] := by
  induction l with
  | nil => rfl
  | cons a t ih =>
    rw [List.dropWhile_cons_of_pos (h a (by simp))]
    exact ih (fun c hc => h c (by simp [hc]))

theorem all_takeWhile (l : GoStr) (p : Char → Bool) :
    ∀ c ∈ l.takeWhile p, p c = true := by
  induction l with
  | nil => simp
  | cons a t ih =>
    by_cases hp : p a = true
    · rw [List.takeWhile_cons_of_pos hp]
      intro c hc
      rcases List.mem_cons.1 hc with hc | hc
      · exact hc ▸ hp
      · exact ih c hc
    · rw [List.takeWhile_cons_of_neg (by simp [hp])]
      simp

theorem foldl_digits_ge (l : GoStr) (a : Nat) :
    a ≤ l.foldl (fun x c => x * 10 + (c.toNat - 48)) a := by
  induction l generalizing a with
  | nil => exact Nat.le_refl a
  | cons c t ih =>
    rw [List.foldl_cons]
    refine Nat.le_trans ?_ (ih (a * 10 + (c.toNat - 48)))
    have : a ≤ a * 10 := Nat.le_mul_of_pos_right a (by omega)
    omega

theorem decimalValue_cons (c : Char) (l : GoStr) :
    decimalValue (c :: l) =
      l.foldl (fun x d => x * 10 + (d.toNat - 48)) (c.toNat - 48) := by
  simp [decimalValue]

theorem decimalValue_ge_ten (c d : Char) (t2 : GoStr) (h : 49 ≤ c.toNat) :
    10 ≤ decimalValue (c :: d :: t2) := by
  rw [decimalValue_cons, List.foldl_cons]
  refine Nat.le_trans ?_ (foldl_digits_ge t2 _)
  have h1 : 1 ≤ c.toNat - 48 := by omega
  have h2 : 10 ≤ (c.toNat - 48) * 10 := by
    calc 10 = 1 * 10 := by omega
    _ ≤ (c.toNat - 48) * 10 := Nat.mul_le_mul_right 10 h1
  omega

theorem parseInt_facts (w t r : GoStr) (h : parseInt w = some (t, r)) :
    w = t ++ r ∧ t ≠ [] ∧ (∀ c ∈ t, isDigitCh c = true) ∧
      ((t.headD ' ').toNat = 48 → t.length = 1) := by
  match w with
  | [] => rw [parseInt] at h; cases h
  | c :: w2 =>
    simp only [parseInt] at h
    by_cases hc : c.toNat < 48 ∨ 57 < c.toNat
    · rw [if_pos hc] at h; cases h
    · rw [if_neg hc] at h
      by_cases hz : c.toNat = 48 ∧ ((c :: w2).takeWhile isDigitCh).length ≠ 1
      · rw [if_pos hz] at h; cases h
      · rw [if_neg hz] at h
        have hinj := Option.some.inj h
        have ht1 : (c :: w2).takeWhile isDigitCh = t := congrArg Prod.fst hinj
        have ht2 : (c :: w2).dropWhile isDigitCh = r := congrArg Prod.snd hinj
        have hcd : isDigitCh c = true := by
          simp only [isDigitCh, decide_eq_true_eq]
          omega
        refine ⟨?_, ?_, ?_, ?_⟩
        · rw [← ht1, ← ht2, List.takeWhile_append_dropWhile]
        · rw [← ht1, List.takeWhile_cons_of_pos hcd]
          simp
        · intro d hd
          rw [← ht1] at hd
          exact all_takeWhile _ _ d hd
        · intro h48
          have hA : c.toNat = 48 := by
            rw [← ht1, List.takeWhile_cons_of_pos hcd, List.headD_cons] at h48
            exact h48
          rw [← ht1]
          by_contra hlen
          exact hz ⟨hA, hlen⟩

theorem parseInt_self (t : GoStr) (hne : t ≠ [])
    (hall : ∀ c ∈ t, isDigitCh c = true)
    (hz : (t.headD ' ').toNat = 48 → t.length = 1) :
    parseInt t = some (t, []) := by
  match t with
  | [] => exact absurd rfl hne
  | c :: t2 =>
    have hcd : isDigitCh c = true := hall c (by simp)
    have hcd2 : 48 ≤ c.toNat ∧ c.toNat ≤ 57 := by
      simpa [isDigitCh] using hcd
    simp only [parseInt]
    rw [if_neg (by omega)]
    rw [takeWhile_of_all hall, dropWhile_of_all hall]
    rw [if_neg ?_]
    · intro hcontra
      obtain ⟨h48, hlen⟩ := hcontra
      exact hlen (hz (by simpa using h48))

theorem semparse_major (v : GoStr) (p : SemParsed) (h : semparse v = some p) :
    ∃ w r, v = 'v' :: w ∧ parseInt w = some (p.major, r) := by
  match v with
  | [] => rw [semparse] at h; cases h
  | c :: w =>
    simp only [semparse] at h
    by_cases hc : c = 'v'
    · subst hc
      rw [if_neg (by simp)] at h
      cases hpi : parseInt w with
      | none => rw [hpi] at h; cases h
      | some pr =>
        obtain ⟨major, r1⟩ := pr
        simp only [hpi] at h
        suffices hs : p.major = major by
          exact ⟨w, r1, rfl, by rw [hpi, hs]⟩
        repeat
          first
          | (cases h; rfl)
          | (cases h)
          | split at h
    · rw [if_pos hc] at h
      cases h

theorem semverMajor_of_parse (v : GoStr) (p : SemParsed)
    (h : semparse v = some p) : semverMajor v = 'v' :: p.major := by
  obtain ⟨w, r, hv, hpi⟩ := semparse_major v p h
  obtain ⟨hw, -, -, -⟩ := parseInt_facts w p.major r hpi
  subst hv
  simp only [semverMajor, h]
  rw [show (1 : Nat) + p.major.length = p.major.length + 1 from Nat.add_comm _ _]
  rw [List.take_succ_cons, hw, take_length_append]

theorem compareInt_one (t : GoStr) (hne : t ≠ [])
    (hall : ∀ c ∈ t, isDigitCh c = true)
    (hz : (t.headD ' ').toNat = 48 → t.length = 1) :
    (0 ≤ compareInt t ['1']) ↔ 1 ≤ decimalValue t := by
  match t with
  | [] => exact absurd rfl hne
  | [c] =>
    have hcd2 : 48 ≤ c.toNat ∧ c.toNat ≤ 57 := by
      simpa [isDigitCh] using hall c (by simp)
    have hdv : decimalValue [c] = c.toNat - 48 := by
      simp [decimalValue]
    by_cases h48 : c.toNat = 48
    · have hc0 : c = '0' := charToNat_inj (by rw [h48]; rfl)
      subst hc0
      rw [hdv]
      constructor
      · intro hh
        exact absurd hh (by decide)
      · intro hh
        omega
    · have h49 : 49 ≤ c.toNat := by omega
      by_cases h49e : c.toNat = 49
      · have hc1 : c = '1' := charToNat_inj (by rw [h49e]; rfl)
        subst hc1
        rw [hdv]
        constructor
        · intro _
          omega
        · intro _
          decide
      · have h50 : 50 ≤ c.toNat := by omega
        have h1n : ('1').toNat = 49 := by decide
        have hci : compareInt [c] ['1'] = 1 := by
          rw [compareInt]
          rw [if_neg (fun hh => h49e (by
            have := congrArg (fun l => (l.headD ' ').toNat) hh
            simpa using this))]
          rw [if_neg (by simp), if_neg (by simp)]
          rw [if_neg (by
            rw [strLtChars]
            rw [if_neg (by omega), if_pos (by omega)]
            simp)]
        rw [hci, hdv]
        constructor
        · intro _
          omega
        · intro _
          decide
  | c :: d :: t2 =>
    have hcd2 : 48 ≤ c.toNat ∧ c.toNat ≤ 57 := by
      simpa [isDigitCh] using hall c (by simp)
    have h49 : 49 ≤ c.toNat := by
      by_contra hcon
      have h48 : c.toNat = 48 := by omega
      have := hz (by simpa using h48)
      simp at this
    have hci : compareInt (c :: d :: t2) ['1'] = 1 := by
      rw [compareInt]
      rw [if_neg (fun hh => by
        have := congrArg List.length hh
        simp at this)]
      rw [if_neg (by simp), if_pos (by simp)]
    rw [hci]
    constructor
    · intro _
      have := decimalValue_ge_ten c d t2 h49
      omega
    · intro _
      decide

theorem isStableVersion_invalid (v : GoStr) (h : semparse v = none) :
    IsStableVersion v = false := by
  have hm : semverMajor v = [] := by simp only [semverMajor, h]
  unfold IsStableVersion
  rw [hm]
  decide

theorem isStableVersion_valid (v : GoStr) (p : SemParsed)
    (h : semparse v = some p) :
    IsStableVersion v = decide (1 ≤ decimalValue p.major) := by
  obtain ⟨w, r, hv, hpi⟩ := semparse_major v p h
  obtain ⟨hw, hne, hall, hz⟩ := parseInt_facts w p.major r hpi
  have hmaj := semverMajor_of_parse v p h
  have hps : semparse ('v' :: p.major) =
      some ⟨p.major, ['0'], ['0'], ".0.0".toList, [], []⟩ := by
    simp only [semparse]
    rw [if_neg (by simp)]
    simp only [parseInt_self p.major hne hall hz]
    exact if_pos trivial
  unfold IsStableVersion
  rw [hmaj]
  unfold semverCompare
  rw [hps]
  rw [show semparse ('v' :: ['1']) =
    some ⟨['1'], ['0'], ['0'], ".0.0".toList, [], []⟩ from by decide]
  simp only [show compareInt ['0'] ['0'] = 0 from by decide,
    show comparePrerelease [] [] = 0 from by decide]
  by_cases hc : compareInt p.major ['1'] = 0
  · rw [if_neg (by simp [hc])]
    simp only [ne_eq, not_true_eq_false, if_false, if_neg (by simp : ¬ (0 : Int) ≠ 0)]
    have hval := (compareInt_one p.major hne hall hz).1 (by rw [hc])
    rw [decide_eq_true hval]
    decide
  · rw [if_pos hc]
    exact decide_eq_decide.2 (compareInt_one p.major hne hall hz)

/-- Claim C8: `IsStableVersion` never errors and is true exactly when the
version parses and its major component is numerically at least 1 (pre-release
and build metadata do not affect the comparison); malformed versions are
treated as unstable.  The three cited example evaluations hold. -/
theorem isStableVersion_spec :
    (∀ v : GoStr, IsStableVersion v = true ↔
      ∃ p, semparse v = some p ∧ 1 ≤ decimalValue p.major)
    ∧ IsStableVersion ("v1.0.0".toList) = true
    ∧ IsStableVersion ("v0.9.0".toList) = false
    ∧ IsStableVersion ("v2.0.0-rc1".toList) = true := by
  refine ⟨?_, by decide, by decide, by decide⟩
  intro v
  cases h : semparse v with
  | none =>
    rw [isStableVersion_invalid v h]
    constructor
    · intro hh
      cases hh
    · rintro ⟨p, hp, -⟩
      cases hp
  | some p =>
    rw [isStableVersion_valid v p h]
    constructor
    · intro hh
      exact ⟨p, rfl, of_decide_eq_true hh⟩
    · rintro ⟨p2, hp2, hv⟩
      have hpp : p2 = p := (Option.some.inj hp2).symm
      subst hpp
      exact decide_eq_true hv

end tools
